import Mathlib

set_option autoImplicit false

namespace Gosse

/-- A message payload: a Go byte slice `[]byte`, modelled as a list of byte values. -/
abbrev Payload := List Nat

/-- Model of a Go channel of payloads (`chan []byte`): a bounded FIFO buffer
together with its capacity and a closed flag. A send enqueues at the tail,
a receive dequeues at the head. -/
structure Chan where
  buf : List Payload
  cap : Nat
  closed : Bool
  deriving Repr, DecidableEq

/-- `make(chan []byte, size)`: constructing a channel with a negative size is a
runtime panic in Go, modelled as `none`. -/
def makeChan (size : Int) : Option Chan :=
  if size < 0 then none else some ⟨[], size.toNat, false⟩

/-- A non-blocking send `select { case ch <- msg: ... default: ... }`.
Sending on a closed channel panics (`none`). Otherwise, if the buffer has room
the payload is enqueued (`some (some ch2)` with the updated channel), and if the
buffer is full (or the channel is unbuffered with no waiting receiver) the
`default` branch is taken (`some none`). -/
def trySend (c : Chan) (msg : Payload) : Option (Option Chan) :=
  if c.closed then none
  else if c.buf.length < c.cap then some (some { c with buf := c.buf ++ [msg] })
  else some none

/-- `close(ch)`: closing an already-closed channel panics in Go (`none`). -/
def closeChan (c : Chan) : Option Chan :=
  if c.closed then none else some { c with closed := true }

/-- `Client` from sse.go: id, message channel, and the two timestamps
(time modelled as natural-number instants). -/
structure Client where
  ID : String
  Message : Chan
  ConnectedAt : Nat
  LastActiveAt : Nat
  deriving Repr, DecidableEq

/-- A value stored in the server's `sync.Map`. `generateClientID` reserves an id
by storing an empty `struct\x7b\x7d` placeholder via `LoadOrStore`; the control loop
later overwrites it with the `*Client`. -/
inductive Entry where
  | placeholder
  | client (c : Client)
  deriving Repr, DecidableEq

/-- `sync.Map.Load`. -/
def mapLoad : List (String × Entry) → String → Option Entry
  | [], _ => none
  | (k, v) :: rest, key => if k = key then some v else mapLoad rest key

/-- `sync.Map.Store`: overwrite the entry at the key if present, else add it. -/
def mapStore : List (String × Entry) → String → Entry → List (String × Entry)
  | [], key, v => [(key, v)]
  | (k, w) :: rest, key, v =>
    if k = key then (key, v) :: rest else (k, w) :: mapStore rest key v

/-- `sync.Map.Delete`. -/
def mapDelete : List (String × Entry) → String → List (String × Entry)
  | [], _ => []
  | (k, w) :: rest, key => if k = key then rest else (k, w) :: mapDelete rest key

/-- `Server` from sse.go. The `add` and `remove` request channels are modelled
by the request list fed to the control loop (`runOps`); `done` is modelled by
the `doneClosed` flag. The mutex around `clientCount` serialises the counter
and is invisible in a sequentialised model. -/
structure Server where
  clients : List (String × Entry)
  clientCount : Int
  doneClosed : Bool
  deriving Repr, DecidableEq

/-- `NewServer()`: empty map, count 0, `done` open. -/
def NewServer : Server := ⟨[], 0, false⟩

/-- The `add` case of `Run`: `clients.Store(client.ID, client)` followed by
`incrementClientCount()`. -/
def processAdd (s : Server) (c : Client) : Server :=
  { s with clients := mapStore s.clients c.ID (.client c),
           clientCount := s.clientCount + 1 }

/-- The `remove` case of `Run`: if the id is absent, nothing happens; if present,
the entry is deleted, `client.(*Client).Message` is closed (a type assertion that
panics on a placeholder entry, and a close that panics on a closed channel), and
the count is decremented. Returns the removed client (with its now-closed
channel) when one was removed. -/
def processRemove (s : Server) (id : String) : Option (Server × Option Client) :=
  match mapLoad s.clients id with
  | none => some (s, none)
  | some .placeholder => none
  | some (.client c) =>
    match closeChan c.Message with
    | none => none
    | some ch =>
      some ({ s with clients := mapDelete s.clients id,
                     clientCount := s.clientCount - 1 },
            some { c with Message := ch })

/-- The `done` case of `Run`: `clients.Range` asserting each value to `*Client`
(panic on a placeholder) and closing its message channel (panic if already
closed). Entries are NOT deleted from the map and the count is NOT changed. -/
def closeAll : List (String × Entry) → Option (List (String × Entry))
  | [] => some []
  | (_, .placeholder) :: _ => none
  | (k, .client c) :: rest =>
    match closeChan c.Message, closeAll rest with
    | some ch, some rest2 => some ((k, .client { c with Message := ch }) :: rest2)
    | _, _ => none

/-- The full `done` case of `Run` applied to the server state. -/
def processShutdown (s : Server) : Option Server :=
  match closeAll s.clients with
  | none => none
  | some m => some { s with clients := m }

/-- A request processed by the control loop `Run`: an arrival on the `add`,
`remove` or `done` channel. -/
inductive Op where
  | add (c : Client)
  | remove (id : String)
  | shutdown
  deriving Repr, DecidableEq

/-- `Run` processing a sequence of requests in arrival order. After the `done`
case the loop returns, so requests after a shutdown are never processed. -/
def runOps : Server → List Op → Option Server
  | s, [] => some s
  | s, .add c :: rest => runOps (processAdd s c) rest
  | s, .remove id :: rest =>
    match processRemove s id with
    | none => none
    | some (s2, _) => runOps s2 rest
  | s, .shutdown :: _ => processShutdown s

/-- `Shutdown()`: `close(s.done)`; closing the already-closed `done` channel
panics (`none`). -/
def Shutdown (s : Server) : Option Server :=
  if s.doneClosed then none else some { s with doneClosed := true }

/-- `ClientCount()`: returns the tracked counter. -/
def ClientCount (s : Server) : Int := s.clientCount

/-- Whether a map entry is a client whose outbox has not been closed. -/
def entryLive : Entry → Bool
  | .placeholder => false
  | .client c => !c.Message.closed

/-- The number of ids currently mapped to a non-closed outbox. -/
def liveCount (s : Server) : Nat :=
  (s.clients.filter (fun p => entryLive p.2)).length

/-- The values returned by the delivery operations via `fmt.Errorf`. -/
inductive SSEErr where
  | notReady (id : String)
  | notFound (id : String)
  deriving Repr, DecidableEq

/-- The `clients.Range` body of `BroadcastMessage`, iterating over the entries:
each value is asserted to `*Client` (panic on a placeholder), then a
non-blocking send is attempted; on success `LastActiveAt` is set to the current
time, on a full buffer `err` is overwritten with the not-ready failure for that
key (so the last failing subscriber in iteration order wins). -/
def broadcastList (msg : Payload) (now : Nat) :
    List (String × Entry) → Option (List (String × Entry) × Option SSEErr)
  | [] => some ([], none)
  | (_, .placeholder) :: _ => none
  | (k, .client c) :: rest =>
    match trySend c.Message msg with
    | none => none
    | some (some ch) =>
      match broadcastList msg now rest with
      | none => none
      | some (rest2, e) =>
        some ((k, .client { c with Message := ch, LastActiveAt := now }) :: rest2, e)
    | some none =>
      match broadcastList msg now rest with
      | none => none
      | some (rest2, e) =>
        some ((k, .client c) :: rest2, some (e.getD (.notReady k)))

/-- `BroadcastMessage(msg)`: range over the map delivering non-blockingly,
returning the updated server and the last per-subscriber failure (or none). -/
def BroadcastMessage (s : Server) (msg : Payload) (now : Nat) :
    Option (Server × Option SSEErr) :=
  match broadcastList msg now s.clients with
  | none => none
  | some (m, e) => some ({ s with clients := m }, e)

/-- `SendMessageToClient(clientID, msg)`: look the id up; absent ids give a
not-found error with no side effect; a present client gets a non-blocking send
(panic `none` if the entry is a placeholder or the channel closed), with
`LastActiveAt` updated on success and a not-ready error on a full buffer. -/
def SendMessageToClient (s : Server) (id : String) (msg : Payload) (now : Nat) :
    Option (Server × Option SSEErr) :=
  match mapLoad s.clients id with
  | none => some (s, some (.notFound id))
  | some .placeholder => none
  | some (.client c) =>
    match trySend c.Message msg with
    | none => none
    | some (some ch) =>
      some ({ s with clients :=
                mapStore s.clients id (.client { c with Message := ch, LastActiveAt := now }) },
            none)
    | some none => some (s, some (.notReady id))

/-- The URL-safe base64 alphabet of `base64.URLEncoding`. -/
def base64urlAlphabet : List Char :=
  "ABCDEFGHIJKLMNOPQRSTUVWXYZabcdefghijklmnopqrstuvwxyz0123456789-_".toList

/-- The alphabet character for a 6-bit value. -/
def b64Char (n : Nat) : Char := base64urlAlphabet.getD n 'A'

/-- `base64.URLEncoding.EncodeToString` on a byte list: 3-byte groups map to 4
alphabet characters; a trailing group of 2 or 1 bytes is padded with `=`. -/
def base64urlEncode : List Nat → List Char
  | a :: b :: c :: rest =>
    b64Char (a / 4) :: b64Char (a % 4 * 16 + b / 16) ::
      b64Char (b % 16 * 4 + c / 64) :: b64Char (c % 64) :: base64urlEncode rest
  | [a, b] => [b64Char (a / 4), b64Char (a % 4 * 16 + b / 16), b64Char (b % 16 * 4), '=']
  | [a] => [b64Char (a / 4), b64Char (a % 4 * 16), '=', '=']
  | [] => []

/-- A candidate id: `base64.URLEncoding.EncodeToString(randomBytes)[:idLength]`
with `idLength = 20`. -/
def candidateId (bytes : List Nat) : List Char :=
  (base64urlEncode bytes).take 20

/-- The retry loop of `generateClientID`, fed the successive outputs of
`rand.Read` (each a block of random bytes). `LoadOrStore` checks the candidate
against the live map: on collision a fresh block is drawn and the loop repeats;
on a miss an empty-struct placeholder is stored under the id and the id is
returned. `none` means the supplied entropy ran out (the real loop is
unbounded). -/
def genLoop (s : Server) : List (List Nat) → Option (List Char × Server)
  | [] => none
  | bytes :: rest =>
    let id := candidateId bytes
    match mapLoad s.clients (String.mk id) with
    | some _ => genLoop s rest
    | none =>
      some (id, { s with clients := mapStore s.clients (String.mk id) .placeholder })

/-- The `size` computation of `AddClient`: the first variadic argument when
given, else the default 10. -/
def bufSizeOf (bufferSize : List Int) : Int :=
  if bufferSize.length > 0 then bufferSize.headD 10 else 10

/-- `AddClient(bufferSize ...int)` up to the send on the `add` channel: the
buffer size defaults to 10, the id is generated (reserving a placeholder in the
map), and the client is constructed with a channel of the chosen capacity
(panic `none` when the capacity is negative). -/
def AddClient (s : Server) (draws : List (List Nat)) (bufferSize : List Int)
    (now : Nat) : Option (Client × Server) :=
  match genLoop s draws with
  | none => none
  | some (id, s2) =>
    match makeChan (bufSizeOf bufferSize) with
    | none => none
    | some ch =>
      some ({ ID := String.mk id, Message := ch, ConnectedAt := now, LastActiveAt := now }, s2)

/-- `AddClient` followed by the control loop processing the resulting `add`
request. -/
def AddClientRun (s : Server) (draws : List (List Nat)) (bufferSize : List Int)
    (now : Nat) : Option (Client × Server) :=
  match AddClient s draws bufferSize now with
  | none => none
  | some (c, s2) => some (c, processAdd s2 c)

/-- A sequence of default-buffer `AddClient` calls, each processed by the
control loop, collecting the generated ids. -/
def addMany (s : Server) (now : Nat) :
    List (List (List Nat)) → Option (List String × Server)
  | [] => some ([], s)
  | draws :: rest =>
    match AddClientRun s draws [] now with
    | none => none
    | some (c, s2) =>
      match addMany s2 now rest with
      | none => none
      | some (ids, s3) => some (c.ID :: ids, s3)

/-! ### Map lemmas -/

theorem mapLoad_mem {l : List (String × Entry)} {k : String} {v : Entry}
    (h : mapLoad l k = some v) : (k, v) ∈ l := by
  induction l with
  | nil => simp [mapLoad] at h
  | cons p rest ih =>
    obtain ⟨k0, v0⟩ := p
    by_cases hk : k0 = k
    · subst hk
      simp [mapLoad] at h
      simp [h]
    · simp [mapLoad, hk] at h
      exact List.mem_cons_of_mem _ (ih h)

theorem mapStore_of_load_none {l : List (String × Entry)} {k : String}
    (h : mapLoad l k = none) (v : Entry) : mapStore l k v = l ++ [(k, v)] := by
  induction l with
  | nil => simp [mapStore]
  | cons p rest ih =>
    obtain ⟨k0, v0⟩ := p
    by_cases hk : k0 = k
    · subst hk; simp [mapLoad] at h
    · simp [mapLoad, hk] at h
      simp [mapStore, hk, ih h]

theorem mapLoad_mapStore_self (l : List (String × Entry)) (k : String) (v : Entry) :
    mapLoad (mapStore l k v) k = some v := by
  induction l with
  | nil => simp [mapStore, mapLoad]
  | cons p rest ih =>
    obtain ⟨k0, v0⟩ := p
    by_cases hk : k0 = k
    · subst hk; simp [mapStore, mapLoad]
    · simp [mapStore, mapLoad, hk, ih]

theorem mapLoad_mapStore_ne (l : List (String × Entry)) {k k2 : String} (v : Entry)
    (h : k ≠ k2) : mapLoad (mapStore l k v) k2 = mapLoad l k2 := by
  induction l with
  | nil => simp [mapStore, mapLoad, h]
  | cons p rest ih =>
    obtain ⟨k0, v0⟩ := p
    by_cases hk : k0 = k
    · subst hk; simp [mapStore, mapLoad, h]
    · simp [mapStore, mapLoad, hk, ih]

theorem mapDelete_subset {l : List (String × Entry)} {k : String} :
    ∀ p ∈ mapDelete l k, p ∈ l := by
  induction l with
  | nil => simp [mapDelete]
  | cons q rest ih =>
    obtain ⟨k0, v0⟩ := q
    by_cases hk : k0 = k
    · subst hk
      simp only [mapDelete, if_pos rfl]
      intro p hp
      exact List.mem_cons_of_mem _ hp
    · simp only [mapDelete, if_neg hk]
      intro p hp
      rcases List.mem_cons.1 hp with h1 | h1
      · simp [h1]
      · exact List.mem_cons_of_mem _ (ih p h1)

theorem filter_length_mapDelete (f : String × Entry → Bool) :
    ∀ (l : List (String × Entry)) (k : String) (v : Entry), mapLoad l k = some v →
      (l.filter f).length =
        ((mapDelete l k).filter f).length + (if f (k, v) then 1 else 0) := by
  intro l
  induction l with
  | nil => intro k v h; simp [mapLoad] at h
  | cons p rest ih =>
    intro k v h
    obtain ⟨k0, v0⟩ := p
    by_cases hk : k0 = k
    · subst hk
      simp [mapLoad] at h
      subst h
      by_cases hf : f (k0, v0)
      · simp [mapDelete, List.filter_cons, hf]
      · simp [mapDelete, List.filter_cons, hf]
    · simp [mapLoad, hk] at h
      have hrec := ih k v h
      by_cases hf : f (k0, v0)
      · simp [mapDelete, hk, List.filter_cons, hf, hrec]
        omega
      · simp [mapDelete, hk, List.filter_cons, hf, hrec]

theorem mapLoad_eq_none_iff (l : List (String × Entry)) (k : String) :
    mapLoad l k = none ↔ k ∉ l.map Prod.fst := by
  induction l with
  | nil => simp [mapLoad]
  | cons p rest ih =>
    obtain ⟨k0, v0⟩ := p
    by_cases hk : k0 = k
    · subst hk; simp [mapLoad]
    · simp [mapLoad, hk, ih, Ne.symm hk]

theorem mapLoad_mapDelete_self (l : List (String × Entry)) (k : String)
    (h : (l.map Prod.fst).Nodup) : mapLoad (mapDelete l k) k = none := by
  induction l with
  | nil => simp [mapDelete, mapLoad]
  | cons p rest ih =>
    obtain ⟨k0, v0⟩ := p
    simp only [List.map_cons, List.nodup_cons] at h
    by_cases hk : k0 = k
    · subst hk
      simp only [mapDelete, if_pos rfl]
      exact (mapLoad_eq_none_iff rest k0).2 h.1
    · simp [mapDelete, mapLoad, hk, ih h.2]

/-! ### Claim theorems -/

/-- C7: `RemoveClient`, as processed by the control loop, is a no-op for an
absent id (no panic, no close, map and count unchanged); for a present live
subscriber it deletes the entry, closes that subscriber's outbox, and
decrements the count. -/
theorem RemoveClient_spec (s : Server) (id : String)
    (hnd : (s.clients.map Prod.fst).Nodup) :
    (mapLoad s.clients id = none → processRemove s id = some (s, none)) ∧
    (∀ c : Client, mapLoad s.clients id = some (.client c) → c.Message.closed = false →
      processRemove s id =
        some ({ s with clients := mapDelete s.clients id,
                       clientCount := s.clientCount - 1 },
              some { c with Message := { c.Message with closed := true } }) ∧
      mapLoad (mapDelete s.clients id) id = none) := by
  constructor
  · intro h
    simp [processRemove, h]
  · intro c hc hclosed
    refine ⟨?_, mapLoad_mapDelete_self _ _ hnd⟩
    simp [processRemove, hc, closeChan, hclosed]

/-- Witness for C7 at a one-client registry: removing the unknown id "z" is a
no-op, removing the present id "a" evicts it, closes its channel and drops the
count to 0. -/
theorem RemoveClient_spec_witness :
    processRemove ⟨[("a", .client ⟨"a", ⟨[], 10, false⟩, 0, 0⟩)], 1, false⟩ "z" =
      some (⟨[("a", .client ⟨"a", ⟨[], 10, false⟩, 0, 0⟩)], 1, false⟩, none) ∧
    processRemove ⟨[("a", .client ⟨"a", ⟨[], 10, false⟩, 0, 0⟩)], 1, false⟩ "a" =
      some (⟨[], 0, false⟩, some ⟨"a", ⟨[], 10, true⟩, 0, 0⟩) := by
  constructor
  · exact (RemoveClient_spec ⟨[("a", .client ⟨"a", ⟨[], 10, false⟩, 0, 0⟩)], 1, false⟩ "z"
      (by decide)).1 (by decide)
  · exact ((RemoveClient_spec ⟨[("a", .client ⟨"a", ⟨[], 10, false⟩, 0, 0⟩)], 1, false⟩ "a"
      (by decide)).2 ⟨"a", ⟨[], 10, false⟩, 0, 0⟩ (by decide) rfl).1

/-- C4: `SendMessageToClient` returns the not-found error and leaves the state
unchanged when the id is absent; for a present live subscriber it enqueues the
payload and stamps `LastActiveAt` when the outbox has room, and returns the
not-ready error with the state unchanged when the outbox is full. -/
theorem SendMessageToClient_spec (s : Server) (id : String) (msg : Payload) (now : Nat) :
    (mapLoad s.clients id = none →
      SendMessageToClient s id msg now = some (s, some (.notFound id))) ∧
    (∀ c : Client, mapLoad s.clients id = some (.client c) → c.Message.closed = false →
      (c.Message.buf.length < c.Message.cap →
        SendMessageToClient s id msg now =
          some ({ s with clients :=
                    mapStore s.clients id (Entry.client { c with
                      Message := { c.Message with buf := c.Message.buf ++ [msg] },
                      LastActiveAt := now }) }, none)) ∧
      (c.Message.cap ≤ c.Message.buf.length →
        SendMessageToClient s id msg now = some (s, some (.notReady id)))) := by
  constructor
  · intro h
    simp [SendMessageToClient, h]
  · intro c hc hclosed
    constructor
    · intro hroom
      simp [SendMessageToClient, hc, trySend, hclosed, hroom]
    · intro hfull
      simp [SendMessageToClient, hc, trySend, hclosed, Nat.not_lt.2 hfull]

/-- Witness for C4 at a two-client registry ("a" with room, "b" full): the
unknown id "z" gets not-found with no state change, "a" gets the payload
enqueued, "b" gets not-ready with no state change. -/
theorem SendMessageToClient_spec_witness :
    SendMessageToClient ⟨[("a", .client ⟨"a", ⟨[], 1, false⟩, 0, 0⟩),
                          ("b", .client ⟨"b", ⟨[[7]], 1, false⟩, 0, 0⟩)], 2, false⟩
        "z" [5] 3 =
      some (⟨[("a", .client ⟨"a", ⟨[], 1, false⟩, 0, 0⟩),
              ("b", .client ⟨"b", ⟨[[7]], 1, false⟩, 0, 0⟩)], 2, false⟩,
            some (.notFound "z")) ∧
    SendMessageToClient ⟨[("a", .client ⟨"a", ⟨[], 1, false⟩, 0, 0⟩),
                          ("b", .client ⟨"b", ⟨[[7]], 1, false⟩, 0, 0⟩)], 2, false⟩
        "a" [5] 3 =
      some (⟨[("a", .client ⟨"a", ⟨[[5]], 1, false⟩, 0, 3⟩),
              ("b", .client ⟨"b", ⟨[[7]], 1, false⟩, 0, 0⟩)], 2, false⟩, none) ∧
    SendMessageToClient ⟨[("a", .client ⟨"a", ⟨[], 1, false⟩, 0, 0⟩),
                          ("b", .client ⟨"b", ⟨[[7]], 1, false⟩, 0, 0⟩)], 2, false⟩
        "b" [5] 3 =
      some (⟨[("a", .client ⟨"a", ⟨[], 1, false⟩, 0, 0⟩),
              ("b", .client ⟨"b", ⟨[[7]], 1, false⟩, 0, 0⟩)], 2, false⟩,
            some (.notReady "b")) := by
  refine ⟨?_, ?_, ?_⟩
  · exact (SendMessageToClient_spec ⟨[("a", .client ⟨"a", ⟨[], 1, false⟩, 0, 0⟩),
      ("b", .client ⟨"b", ⟨[[7]], 1, false⟩, 0, 0⟩)], 2, false⟩ "z" [5] 3).1 (by decide)
  · exact ((SendMessageToClient_spec ⟨[("a", .client ⟨"a", ⟨[], 1, false⟩, 0, 0⟩),
      ("b", .client ⟨"b", ⟨[[7]], 1, false⟩, 0, 0⟩)], 2, false⟩ "a" [5] 3).2
      ⟨"a", ⟨[], 1, false⟩, 0, 0⟩ (by decide) rfl).1 (by decide)
  · exact ((SendMessageToClient_spec ⟨[("a", .client ⟨"a", ⟨[], 1, false⟩, 0, 0⟩),
      ("b", .client ⟨"b", ⟨[[7]], 1, false⟩, 0, 0⟩)], 2, false⟩ "b" [5] 3).2
      ⟨"b", ⟨[[7]], 1, false⟩, 0, 0⟩ (by decide) rfl).2 (by decide)

/-- The contract of the `generateClientID` retry loop: a returned id was absent
from the map at reservation time, the map gains exactly the placeholder entry
for it, and the id is the encoding of one of the supplied random blocks. -/
theorem genLoop_spec {s : Server} :
    ∀ {draws : List (List Nat)} {id : List Char} {s2 : Server},
      genLoop s draws = some (id, s2) →
      mapLoad s.clients (String.mk id) = none ∧
      s2 = { s with clients := mapStore s.clients (String.mk id) .placeholder } ∧
      id ∈ draws.map candidateId := by
  intro draws
  induction draws with
  | nil => intro id s2 h; simp [genLoop] at h
  | cons bytes rest ih =>
    intro id s2 h
    simp only [genLoop] at h
    cases hl : mapLoad s.clients (String.mk (candidateId bytes)) with
    | some e =>
      rw [hl] at h
      obtain ⟨h1, h2, h3⟩ := ih h
      exact ⟨h1, h2, by simp [h3]⟩
    | none =>
      rw [hl] at h
      simp only [Option.some.injEq, Prod.mk.injEq] at h
      obtain ⟨h1, h2⟩ := h
      subst h1
      exact ⟨hl, h2.symm, by simp⟩

/-- C8: `AddClient` with no buffer-size argument yields a client whose channel
has capacity exactly 10, and `AddClient(n)` for `n > 0` capacity exactly `n`;
the id is freshly generated (absent from the map at reservation time) and the
client ends up registered in the map once the control loop processes the add
request. -/
theorem AddClient_buffer_capacity (s : Server) (draws : List (List Nat)) (now : Nat)
    (id : List Char) (s2 : Server) (h : genLoop s draws = some (id, s2)) :
    AddClientRun s draws [] now =
      some (⟨String.mk id, ⟨[], 10, false⟩, now, now⟩,
            processAdd s2 ⟨String.mk id, ⟨[], 10, false⟩, now, now⟩) ∧
    (∀ n : Nat, 0 < n → AddClientRun s draws [(n : Int)] now =
      some (⟨String.mk id, ⟨[], n, false⟩, now, now⟩,
            processAdd s2 ⟨String.mk id, ⟨[], n, false⟩, now, now⟩)) ∧
    mapLoad s.clients (String.mk id) = none ∧
    (∀ c : Client, mapLoad (processAdd s2 c).clients c.ID = some (.client c)) := by
  refine ⟨?_, ?_, (genLoop_spec h).1, ?_⟩
  · simp [AddClientRun, AddClient, h, makeChan, bufSizeOf]
  · intro n _
    have hn : ¬ ((n : Int) < 0) := by omega
    simp [AddClientRun, AddClient, h, makeChan, bufSizeOf, hn]
  · intro c
    simp [processAdd, mapLoad_mapStore_self]

/-- A concrete block of 20 zero random bytes. -/
def zeroDraw : List Nat := List.replicate 20 0

/-- The id generated from `zeroDraw` ("AAAAAAAAAAAAAAAAAAAA"). -/
def idZero : List Char := candidateId zeroDraw

/-- The fresh server right after `generateClientID` reserved `idZero`. -/
def reservedZero : Server :=
  { NewServer with clients := mapStore NewServer.clients (String.mk idZero) Entry.placeholder }

/-- Witness for C8: from the fresh server with one random block of zero bytes,
the default call gives capacity 10 and the call with buffer size 3 gives
capacity 3. -/
theorem AddClient_buffer_capacity_witness :
    AddClientRun NewServer [zeroDraw] [] 0 =
      some (⟨String.mk idZero, ⟨[], 10, false⟩, 0, 0⟩,
            processAdd reservedZero ⟨String.mk idZero, ⟨[], 10, false⟩, 0, 0⟩) ∧
    AddClientRun NewServer [zeroDraw] [(3 : Int)] 0 =
      some (⟨String.mk idZero, ⟨[], 3, false⟩, 0, 0⟩,
            processAdd reservedZero ⟨String.mk idZero, ⟨[], 3, false⟩, 0, 0⟩) := by
  have h := AddClient_buffer_capacity NewServer [zeroDraw] 0 idZero reservedZero rfl
  exact ⟨h.1, h.2.1 3 (by decide)⟩

/-- C10: `AddClient` does not validate the buffer size. `AddClient(0)` creates
an unbuffered channel, and with no concurrent receiver every non-blocking
enqueue on an unbuffered channel takes the `default` branch, so a targeted send
to that subscriber always returns the not-ready error; `AddClient(n)` for
negative `n` panics constructing the channel. -/
theorem AddClient_no_size_validation (s : Server) (draws : List (List Nat)) (now : Nat)
    (id : List Char) (s2 : Server) (h : genLoop s draws = some (id, s2)) :
    (∀ c : Client, ∀ s3 : Server,
      AddClientRun s draws [(0 : Int)] now = some (c, s3) →
      c.Message.cap = 0 ∧
      (∀ msg : Payload, ∀ now2 : Nat,
        SendMessageToClient s3 c.ID msg now2 = some (s3, some (.notReady c.ID)))) ∧
    (∀ buf : List Payload, ∀ msg : Payload, trySend ⟨buf, 0, false⟩ msg = some none) ∧
    (∀ n : Int, n < 0 → AddClient s draws [n] now = none) := by
  refine ⟨?_, ?_, ?_⟩
  · intro c s3 heq
    have hrun : AddClientRun s draws [(0 : Int)] now =
        some (⟨String.mk id, ⟨[], 0, false⟩, now, now⟩,
              processAdd s2 ⟨String.mk id, ⟨[], 0, false⟩, now, now⟩) := by
      simp [AddClientRun, AddClient, h, makeChan, bufSizeOf]
    rw [hrun] at heq
    simp only [Option.some.injEq, Prod.mk.injEq] at heq
    obtain ⟨hc, hs3⟩ := heq
    subst hc
    subst hs3
    refine ⟨rfl, ?_⟩
    intro msg now2
    have hload := mapLoad_mapStore_self s2.clients (String.mk id)
      (.client ⟨String.mk id, ⟨[], 0, false⟩, now, now⟩)
    simp [SendMessageToClient, processAdd, hload, trySend]
  · intro buf msg
    simp [trySend]
  · intro n hn
    simp [AddClient, h, makeChan, bufSizeOf, hn]

/-- Witness for C10: with buffer size 0 the created channel has capacity 0 and
a send to the new client is not-ready; with buffer size -1 the construction
panics. -/
theorem AddClient_no_size_validation_witness :
    AddClientRun NewServer [zeroDraw] [(0 : Int)] 0 =
      some (⟨String.mk idZero, ⟨[], 0, false⟩, 0, 0⟩,
            processAdd reservedZero ⟨String.mk idZero, ⟨[], 0, false⟩, 0, 0⟩) ∧
    SendMessageToClient (processAdd reservedZero ⟨String.mk idZero, ⟨[], 0, false⟩, 0, 0⟩)
        (String.mk idZero) [9] 1 =
      some (processAdd reservedZero ⟨String.mk idZero, ⟨[], 0, false⟩, 0, 0⟩,
            some (.notReady (String.mk idZero))) ∧
    AddClient NewServer [zeroDraw] [(-1 : Int)] 0 = none := by
  have h := AddClient_no_size_validation NewServer [zeroDraw] 0 idZero reservedZero rfl
  have hrun : AddClientRun NewServer [zeroDraw] [(0 : Int)] 0 =
      some (⟨String.mk idZero, ⟨[], 0, false⟩, 0, 0⟩,
            processAdd reservedZero ⟨String.mk idZero, ⟨[], 0, false⟩, 0, 0⟩) := by
    rfl
  obtain ⟨hcap, hsend⟩ := h.1 _ _ hrun
  exact ⟨hrun, hsend [9] 1, h.2.2 (-1) (by decide)⟩

/-- C9: from the fresh server, `generateClientID` reserves an id by storing a
non-`*Client` placeholder; in that reachable intermediate state the map holds
the placeholder, and both `BroadcastMessage` and the shutdown cleanup in `Run`
panic on the `value.(*Client)` type assertion. -/
theorem placeholder_assertion_panics :
    (genLoop NewServer [List.replicate 20 0]).isSome = true ∧
    (genLoop NewServer [List.replicate 20 0]).map
      (fun p => mapLoad p.2.clients (String.mk p.1)) = some (some .placeholder) ∧
    (genLoop NewServer [List.replicate 20 0]).bind
      (fun p => BroadcastMessage p.2 [1] 0) = none ∧
    (genLoop NewServer [List.replicate 20 0]).bind
      (fun p => processShutdown p.2) = none := by
  exact ⟨rfl, rfl, rfl, rfl⟩

/-- C1 counterexample: the control loop processes an add and then the shutdown;
afterwards `ClientCount()` is still 1 while no id maps to a non-closed outbox
(the closed subscriber is still present in the map), so the claimed invariant
fails at the shutdown step and the count after Shutdown is not 0. -/
theorem shutdown_leaves_count_and_entries :
    (runOps NewServer [.add ⟨"a", ⟨[], 10, false⟩, 0, 0⟩, .shutdown]).map
      (fun s => (ClientCount s, liveCount s, mapLoad s.clients "a")) =
      some (1, 0, some (.client ⟨"a", ⟨[], 10, true⟩, 0, 0⟩)) := by
  decide

/-- C2 counterexample: the first `Shutdown()` call closes `done`; the second
call closes the already-closed `done` channel, a double close that panics. -/
theorem second_Shutdown_panics :
    Shutdown NewServer = some ⟨[], 0, true⟩ ∧
    (Shutdown NewServer).bind Shutdown = none := by
  decide

/-- The closed version of a map entry (what the shutdown cleanup leaves). -/
def closeEntry : Entry → Entry
  | .placeholder => .placeholder
  | .client c => .client { c with Message := { c.Message with closed := true } }

theorem entryLive_closeEntry (e : Entry) : entryLive (closeEntry e) = false := by
  cases e <;> simp [closeEntry, entryLive]

theorem closeAll_spec : ∀ (l : List (String × Entry)),
    (∀ p ∈ l, ∃ c : Client, p.2 = .client c ∧ c.Message.closed = false) →
    closeAll l = some (l.map (fun p => (p.1, closeEntry p.2))) := by
  intro l
  induction l with
  | nil => intro _; simp [closeAll]
  | cons p rest ih =>
    intro h
    obtain ⟨k, e⟩ := p
    obtain ⟨c, hc, hclosed⟩ := h (k, e) (List.mem_cons_self _ _)
    simp only at hc
    subst hc
    have hrest := ih (fun q hq => h q (List.mem_cons_of_mem _ hq))
    simp [closeAll, closeChan, hclosed, hrest, closeEntry]

/-- C2 (amended): processing the shutdown signal closes every remaining
subscriber's open outbox exactly once (the per-entry close panics on an
already-closed channel, so success means each close happened once) and
terminates the control loop permanently (requests after the shutdown are never
processed); the first `Shutdown()` call closes `done`, but a second call
panics by closing the already-closed `done` channel. -/
theorem Shutdown_closes_each_outbox_once (s : Server)
    (h : ∀ p ∈ s.clients, ∃ c : Client, p.2 = .client c ∧ c.Message.closed = false) :
    processShutdown s =
      some { s with clients := s.clients.map (fun p => (p.1, closeEntry p.2)) } ∧
    (∀ p ∈ s.clients.map (fun p => (p.1, closeEntry p.2)), entryLive p.2 = false) ∧
    (∀ rest : List Op, runOps s (.shutdown :: rest) = processShutdown s) ∧
    (s.doneClosed = false →
      Shutdown s = some { s with doneClosed := true } ∧
      Shutdown { s with doneClosed := true } = none) := by
  refine ⟨?_, ?_, ?_, ?_⟩
  · simp [processShutdown, closeAll_spec s.clients h]
  · intro p hp
    obtain ⟨q, _, hq⟩ := List.mem_map.1 hp
    rw [← hq]
    exact entryLive_closeEntry q.2
  · intro rest
    rfl
  · intro hdone
    simp [Shutdown, hdone]

/-- Witness for C2 at a one-client registry: the shutdown cleanup closes the
outbox and keeps the entry; `Shutdown()` succeeds once and panics the second
time. -/
theorem Shutdown_closes_each_outbox_once_witness :
    processShutdown ⟨[("a", .client ⟨"a", ⟨[[2]], 1, false⟩, 0, 0⟩)], 1, false⟩ =
      some ⟨[("a", .client ⟨"a", ⟨[[2]], 1, true⟩, 0, 0⟩)], 1, false⟩ ∧
    Shutdown ⟨[("a", .client ⟨"a", ⟨[[2]], 1, false⟩, 0, 0⟩)], 1, false⟩ =
      some ⟨[("a", .client ⟨"a", ⟨[[2]], 1, false⟩, 0, 0⟩)], 1, true⟩ ∧
    Shutdown ⟨[("a", .client ⟨"a", ⟨[[2]], 1, false⟩, 0, 0⟩)], 1, true⟩ = none := by
  have h := Shutdown_closes_each_outbox_once
    ⟨[("a", .client ⟨"a", ⟨[[2]], 1, false⟩, 0, 0⟩)], 1, false⟩
    (by
      rintro p hp
      rcases List.mem_singleton.1 hp with rfl
      exact ⟨⟨"a", ⟨[[2]], 1, false⟩, 0, 0⟩, rfl, rfl⟩)
  obtain ⟨h1, -, -, h4⟩ := h
  obtain ⟨h5, h6⟩ := h4 rfl
  exact ⟨h1, h5, h6⟩

/-- The effect of a successful broadcast enqueue on a map entry: the payload is
appended at the tail of the buffer and `LastActiveAt` is stamped. -/
def enqueueEntry (msg : Payload) (now : Nat) : Entry → Entry
  | .placeholder => .placeholder
  | .client c =>
    .client { c with
      Message := { c.Message with buf := c.Message.buf ++ [msg] },
      LastActiveAt := now }

/-- The per-entry effect of `BroadcastMessage`: enqueue when the outbox has
room, leave the entry untouched when it is full. -/
def deliverEntry (msg : Payload) (now : Nat) : Entry → Entry
  | .placeholder => .placeholder
  | .client c =>
    if c.Message.buf.length < c.Message.cap then enqueueEntry msg now (.client c)
    else .client c

/-- Whether an entry is a client whose outbox is full. -/
def entryFull : Entry → Bool
  | .placeholder => false
  | .client c => !(c.Message.buf.length < c.Message.cap : Bool)

/-- The error `BroadcastMessage` surfaces: the not-ready failure of the last
full subscriber in iteration order (later failures overwrite earlier ones). -/
def lastErr : List (String × Entry) → Option SSEErr
  | [] => none
  | (k, e) :: rest =>
    match lastErr rest with
    | some err => some err
    | none => if entryFull e then some (.notReady k) else none

theorem lastErr_none : ∀ (l : List (String × Entry)),
    (∀ p ∈ l, entryFull p.2 = false) → lastErr l = none := by
  intro l
  induction l with
  | nil => intro _; rfl
  | cons p rest ih =>
    intro h
    obtain ⟨k, e⟩ := p
    have hrest := ih (fun q hq => h q (List.mem_cons_of_mem _ hq))
    have hk := h (k, e) (List.mem_cons_self _ _)
    simp only at hk
    simp [lastErr, hrest, hk]

theorem broadcastList_spec (msg : Payload) (now : Nat) :
    ∀ (l : List (String × Entry)),
      (∀ p ∈ l, ∃ c : Client, p.2 = .client c ∧ c.Message.closed = false) →
      broadcastList msg now l =
        some (l.map (fun p => (p.1, deliverEntry msg now p.2)), lastErr l) := by
  intro l
  induction l with
  | nil => intro _; simp [broadcastList, lastErr]
  | cons p rest ih =>
    intro h
    obtain ⟨k, e⟩ := p
    obtain ⟨c, hc, hclosed⟩ := h (k, e) (List.mem_cons_self _ _)
    simp only at hc
    subst hc
    have hrest := ih (fun q hq => h q (List.mem_cons_of_mem _ hq))
    by_cases hroom : c.Message.buf.length < c.Message.cap
    · have hsend : trySend c.Message msg =
          some (some { c.Message with buf := c.Message.buf ++ [msg] }) := by
        simp [trySend, hclosed, hroom]
      have hfull : entryFull (Entry.client c) = false := by
        simp [entryFull, hroom]
      simp only [broadcastList, hsend, hrest]
      cases hE : lastErr rest with
      | none => simp [lastErr, hE, hfull, deliverEntry, enqueueEntry, hroom]
      | some err => simp [lastErr, hE, deliverEntry, enqueueEntry, hroom]
    · have hsend : trySend c.Message msg = some none := by
        simp [trySend, hclosed, hroom]
      have hfull : entryFull (Entry.client c) = true := by
        simp [entryFull, hroom]
      simp only [broadcastList, hsend, hrest]
      cases hE : lastErr rest with
      | none => simp [lastErr, hE, hfull, deliverEntry, hroom]
      | some err => simp [lastErr, hE, deliverEntry, hroom]

/-- Broadcast over a registry of live clients whose outboxes all have room
delivers to every one of them and reports no error. -/
theorem broadcast_nonfull_aux (s : Server) (msg : Payload) (now : Nat)
    (h : ∀ p ∈ s.clients, ∃ c : Client, p.2 = .client c ∧ c.Message.closed = false ∧
           c.Message.buf.length < c.Message.cap) :
    BroadcastMessage s msg now =
      some ({ s with clients := s.clients.map (fun p => (p.1, enqueueEntry msg now p.2)) },
            none) := by
  have hlive : ∀ p ∈ s.clients, ∃ c : Client, p.2 = .client c ∧ c.Message.closed = false :=
    fun p hp => ⟨(h p hp).choose, (h p hp).choose_spec.1, (h p hp).choose_spec.2.1⟩
  have hbl := broadcastList_spec msg now s.clients hlive
  have herr : lastErr s.clients = none := by
    apply lastErr_none
    intro p hp
    obtain ⟨c, hc, _, hroom⟩ := h p hp
    rw [hc]
    simp [entryFull, hroom]
  have hmap : s.clients.map (fun p => (p.1, deliverEntry msg now p.2)) =
      s.clients.map (fun p => (p.1, enqueueEntry msg now p.2)) := by
    apply List.map_congr_left
    intro p hp
    obtain ⟨c, hc, _, hroom⟩ := h p hp
    rw [hc]
    simp [deliverEntry, hroom]
  simp [BroadcastMessage, hbl, herr, hmap]

/-- C3: broadcasting to a registry of K live subscribers with non-full outboxes
enqueues the exact byte payload at the tail of all K outboxes, stamping each
receiver's `LastActiveAt`, and a second broadcast appends after the first, so
per-subscriber FIFO order is preserved across repeated broadcasts. -/
theorem BroadcastMessage_delivers_to_all (s : Server) (msg : Payload) (now : Nat)
    (h : ∀ p ∈ s.clients, ∃ c : Client, p.2 = .client c ∧ c.Message.closed = false ∧
           c.Message.buf.length < c.Message.cap) :
    BroadcastMessage s msg now =
      some ({ s with clients := s.clients.map (fun p => (p.1, enqueueEntry msg now p.2)) },
            none) ∧
    (∀ p ∈ s.clients, ∀ c : Client, p.2 = .client c →
      enqueueEntry msg now p.2 =
        Entry.client { c with
          Message := { c.Message with buf := c.Message.buf ++ [msg] },
          LastActiveAt := now }) ∧
    (∀ msg2 : Payload, ∀ now2 : Nat,
      (∀ p ∈ s.clients, ∃ c : Client, p.2 = .client c ∧ c.Message.closed = false ∧
         c.Message.buf.length + 1 < c.Message.cap) →
      (BroadcastMessage s msg now).bind (fun r => BroadcastMessage r.1 msg2 now2) =
        some ({ s with clients :=
                  s.clients.map (fun p => (p.1, enqueueEntry msg2 now2 (enqueueEntry msg now p.2))) },
              none)) := by
  refine ⟨broadcast_nonfull_aux s msg now h, ?_, ?_⟩
  · intro p _ c hc
    rw [hc]
    rfl
  · intro msg2 now2 h2
    rw [broadcast_nonfull_aux s msg now h]
    simp only [Option.some_bind]
    have h3 : ∀ p ∈ s.clients.map (fun p => (p.1, enqueueEntry msg now p.2)),
        ∃ c : Client, p.2 = .client c ∧ c.Message.closed = false ∧
          c.Message.buf.length < c.Message.cap := by
      intro p hp
      obtain ⟨q, hq, hpq⟩ := List.mem_map.1 hp
      obtain ⟨c, hc, hclosed, hroom⟩ := h2 q hq
      refine ⟨{ c with
        Message := { c.Message with buf := c.Message.buf ++ [msg] },
        LastActiveAt := now }, ?_, hclosed, ?_⟩
      · rw [← hpq, hc]
        rfl
      · simp
        omega
    rw [broadcast_nonfull_aux _ msg2 now2 h3]
    simp [List.map_map, Function.comp]

/-- Witness for C3 at a two-client registry with room: both receive [9], then
both receive [8] behind it in FIFO order. -/
theorem BroadcastMessage_delivers_to_all_witness :
    (BroadcastMessage ⟨[("a", .client ⟨"a", ⟨[], 2, false⟩, 0, 0⟩),
                        ("b", .client ⟨"b", ⟨[], 2, false⟩, 0, 0⟩)], 2, false⟩ [9] 4).bind
        (fun r => BroadcastMessage r.1 [8] 5) =
      some (⟨[("a", .client ⟨"a", ⟨[[9], [8]], 2, false⟩, 0, 5⟩),
              ("b", .client ⟨"b", ⟨[[9], [8]], 2, false⟩, 0, 5⟩)], 2, false⟩, none) := by
  have h := BroadcastMessage_delivers_to_all
    ⟨[("a", .client ⟨"a", ⟨[], 2, false⟩, 0, 0⟩),
      ("b", .client ⟨"b", ⟨[], 2, false⟩, 0, 0⟩)], 2, false⟩ [9] 4
    (by
      rintro p hp
      rcases List.mem_cons.1 hp with rfl | hp2
      · exact ⟨⟨"a", ⟨[], 2, false⟩, 0, 0⟩, rfl, rfl, by decide⟩
      · rcases List.mem_singleton.1 hp2 with rfl
        exact ⟨⟨"b", ⟨[], 2, false⟩, 0, 0⟩, rfl, rfl, by decide⟩)
  have h2 := h.2.2 [8] 5
    (by
      rintro p hp
      rcases List.mem_cons.1 hp with rfl | hp2
      · exact ⟨⟨"a", ⟨[], 2, false⟩, 0, 0⟩, rfl, rfl, by decide⟩
      · rcases List.mem_singleton.1 hp2 with rfl
        exact ⟨⟨"b", ⟨[], 2, false⟩, 0, 0⟩, rfl, rfl, by decide⟩)
  exact h2

/-- C5: broadcasting over live subscribers delivers to those with room, skips
(drops the message for) exactly the full ones, and returns the not-ready
failure of the last full subscriber in iteration order, or nil when no outbox
is full. -/
theorem BroadcastMessage_skips_full (s : Server) (msg : Payload) (now : Nat)
    (h : ∀ p ∈ s.clients, ∃ c : Client, p.2 = .client c ∧ c.Message.closed = false) :
    BroadcastMessage s msg now =
      some ({ s with clients := s.clients.map (fun p => (p.1, deliverEntry msg now p.2)) },
            lastErr s.clients) ∧
    (∀ p ∈ s.clients, entryFull p.2 = true → deliverEntry msg now p.2 = p.2) ∧
    (∀ p ∈ s.clients, entryFull p.2 = false → ∀ c : Client, p.2 = .client c →
      deliverEntry msg now p.2 =
        Entry.client { c with
          Message := { c.Message with buf := c.Message.buf ++ [msg] },
          LastActiveAt := now }) ∧
    ((∀ p ∈ s.clients, entryFull p.2 = false) → lastErr s.clients = none) := by
  refine ⟨?_, ?_, ?_, lastErr_none s.clients⟩
  · simp [BroadcastMessage, broadcastList_spec msg now s.clients h]
  · intro p _ hfull
    cases he : p.2 with
    | placeholder => rfl
    | client c =>
      rw [he] at hfull
      simp [entryFull] at hfull
      simp [deliverEntry, Nat.not_lt.2 hfull]
  · intro p _ hfull c hc
    rw [hc] at hfull ⊢
    simp [entryFull] at hfull
    simp [deliverEntry, enqueueEntry, hfull]

/-- Witness for C5 at a three-client registry where "b" and "c" are full: "a"
receives the payload, "b" and "c" are skipped, and the reported failure is the
not-ready error of "c", the last full subscriber in iteration order. -/
theorem BroadcastMessage_skips_full_witness :
    BroadcastMessage ⟨[("a", .client ⟨"a", ⟨[[1]], 2, false⟩, 0, 0⟩),
                       ("b", .client ⟨"b", ⟨[[2]], 1, false⟩, 0, 0⟩),
                       ("c", .client ⟨"c", ⟨[], 0, false⟩, 0, 0⟩)], 3, false⟩ [9] 5 =
      some (⟨[("a", .client ⟨"a", ⟨[[1], [9]], 2, false⟩, 0, 5⟩),
              ("b", .client ⟨"b", ⟨[[2]], 1, false⟩, 0, 0⟩),
              ("c", .client ⟨"c", ⟨[], 0, false⟩, 0, 0⟩)], 3, false⟩,
            some (.notReady "c")) := by
  have h := BroadcastMessage_skips_full
    ⟨[("a", .client ⟨"a", ⟨[[1]], 2, false⟩, 0, 0⟩),
      ("b", .client ⟨"b", ⟨[[2]], 1, false⟩, 0, 0⟩),
      ("c", .client ⟨"c", ⟨[], 0, false⟩, 0, 0⟩)], 3, false⟩ [9] 5
    (by
      rintro p hp
      rcases List.mem_cons.1 hp with rfl | hp2
      · exact ⟨⟨"a", ⟨[[1]], 2, false⟩, 0, 0⟩, rfl, rfl⟩
      · rcases List.mem_cons.1 hp2 with rfl | hp3
        · exact ⟨⟨"b", ⟨[[2]], 1, false⟩, 0, 0⟩, rfl, rfl⟩
        · rcases List.mem_singleton.1 hp3 with rfl
          exact ⟨⟨"c", ⟨[], 0, false⟩, 0, 0⟩, rfl, rfl⟩)
  exact h.1

/-- The registry invariant of the spec: the tracked count equals the number of
ids mapped to a non-closed outbox, and every entry is a live client. -/
def Inv (s : Server) : Prop :=
  s.clientCount = (liveCount s : Int) ∧ ∀ p ∈ s.clients, entryLive p.2 = true

/-- Side conditions for a request sequence: adds carry a fresh id and an open
channel (which `AddClient` guarantees), removes never hit a panicking entry,
and no shutdown occurs. -/
def opsOK : Server → List Op → Bool
  | _, [] => true
  | s, .add c :: rest =>
    (mapLoad s.clients c.ID).isNone && !c.Message.closed && opsOK (processAdd s c) rest
  | s, .remove id :: rest =>
    match processRemove s id with
    | none => false
    | some (s2, _) => opsOK s2 rest
  | _, .shutdown :: _ => false

theorem liveCount_processAdd (s : Server) (c : Client)
    (hfresh : mapLoad s.clients c.ID = none) (hopen : c.Message.closed = false) :
    liveCount (processAdd s c) = liveCount s + 1 := by
  simp only [processAdd, liveCount, mapStore_of_load_none hfresh]
  rw [List.filter_append]
  simp [entryLive, hopen]

/-- C1 (amended): for every sequence of add/remove requests processed by the
control loop (no shutdown, adds fresh and open as `AddClient` produces them),
the loop never panics, `ClientCount()` equals the number of ids mapped to a
non-closed outbox, and every registered subscriber's channel is unclosed. The
claim's extension to shutdown fails: see the counterexample. -/
theorem runOps_count_invariant : ∀ (ops : List Op) (s : Server),
    Inv s → opsOK s ops = true →
    ∃ s2, runOps s ops = some s2 ∧ ClientCount s2 = (liveCount s2 : Int) ∧
      ∀ p ∈ s2.clients, ∃ c : Client, p.2 = .client c ∧ c.Message.closed = false := by
  intro ops
  induction ops with
  | nil =>
    intro s hInv _
    refine ⟨s, rfl, hInv.1, ?_⟩
    intro p hp
    have := hInv.2 p hp
    cases he : p.2 with
    | placeholder => rw [he] at this; simp [entryLive] at this
    | client c =>
      rw [he] at this
      simp [entryLive] at this
      exact ⟨c, rfl, this⟩
  | cons op rest ih =>
    intro s hInv hOK
    cases op with
    | add c =>
      simp only [opsOK, Bool.and_eq_true, Option.isNone_iff_eq_none,
        Bool.not_eq_true', decide_eq_true_eq] at hOK
      obtain ⟨⟨hfresh, hopen⟩, hOK2⟩ := hOK
      have hInv2 : Inv (processAdd s c) := by
        constructor
        · rw [liveCount_processAdd s c hfresh hopen]
          have h1 := hInv.1
          simp only [processAdd]
          push_cast
          omega
        · intro p hp
          simp only [processAdd, mapStore_of_load_none hfresh, List.mem_append] at hp
          rcases hp with hp | hp
          · exact hInv.2 p hp
          · simp at hp
            subst hp
            simp [entryLive, hopen]
      exact ih (processAdd s c) hInv2 hOK2
    | remove id =>
      cases hl : mapLoad s.clients id with
      | none =>
        have hpr : processRemove s id = some (s, none) := by
          simp [processRemove, hl]
        simp only [opsOK, hpr] at hOK
        obtain ⟨s2, h1, h2, h3⟩ := ih s hInv hOK
        exact ⟨s2, by simp [runOps, hpr, h1], h2, h3⟩
      | some e =>
        have hmem := mapLoad_mem hl
        have hlive := hInv.2 (id, e) hmem
        cases e with
        | placeholder => simp [entryLive] at hlive
        | client c =>
          simp only [entryLive, Bool.not_eq_true'] at hlive
          have hpr : processRemove s id =
              some ({ s with clients := mapDelete s.clients id,
                             clientCount := s.clientCount - 1 },
                    some { c with Message := { c.Message with closed := true } }) := by
            simp [processRemove, hl, closeChan, hlive]
          have hcount := filter_length_mapDelete (fun p => entryLive p.2) s.clients id
            (.client c) hl
          have hInv2 : Inv { s with clients := mapDelete s.clients id,
                                    clientCount := s.clientCount - 1 } := by
            constructor
            · have hif : entryLive (Entry.client c) = true := by
                simp [entryLive, hlive]
              have hcount2 : (List.filter (fun p => entryLive p.2) s.clients).length =
                  (List.filter (fun p => entryLive p.2) (mapDelete s.clients id)).length + 1 := by
                simpa [hif] using hcount
              have h1 := hInv.1
              simp only [liveCount] at h1 ⊢
              omega
            · intro p hp
              exact hInv.2 p (mapDelete_subset p hp)
          simp only [opsOK, hpr] at hOK
          obtain ⟨s2, h1, h2, h3⟩ := ih _ hInv2 hOK
          exact ⟨s2, by simp [runOps, hpr, h1], h2, h3⟩
    | shutdown => simp [opsOK] at hOK

/-- The request sequence of the C1 witness: add "a" and "b", remove "a",
remove the unknown "z". -/
def opsC1 : List Op :=
  [.add ⟨"a", ⟨[], 1, false⟩, 0, 0⟩, .add ⟨"b", ⟨[], 1, false⟩, 0, 0⟩,
   .remove "a", .remove "z"]

/-- The registry state after `opsC1`. -/
def finalC1 : Server := ⟨[("b", .client ⟨"b", ⟨[], 1, false⟩, 0, 0⟩)], 1, false⟩

/-- Witness for C1: the concrete sequence `opsC1` satisfies the side
conditions, runs without panic to `finalC1`, and there the count equals the
number of live outboxes. -/
theorem runOps_count_invariant_witness :
    Inv NewServer ∧ opsOK NewServer opsC1 = true ∧
    runOps NewServer opsC1 = some finalC1 ∧
    ClientCount finalC1 = (liveCount finalC1 : Int) := by
  obtain ⟨s2, h1, h2, -⟩ := runOps_count_invariant opsC1 NewServer
    (by constructor <;> decide) (by decide)
  have hc : runOps NewServer opsC1 = some finalC1 := by decide
  rw [h1] at hc
  injection hc with hc
  subst hc
  exact ⟨⟨by decide, by decide⟩, by decide, h1, h2⟩

/-! ### Identity generation: format of the encoded ids -/

theorem b64Char_mem {n : Nat} (h : n < 64) : b64Char n ∈ base64urlAlphabet := by
  interval_cases n <;> decide

theorem base64urlEncode_append3 : ∀ (l1 l2 : List Nat), l1.length % 3 = 0 →
    base64urlEncode (l1 ++ l2) = base64urlEncode l1 ++ base64urlEncode l2
  | [], l2, _ => by simp [base64urlEncode]
  | [_], _, h => by simp at h
  | [_, _], _, h => by simp at h
  | a :: b :: c :: rest, l2, h => by
    have h2 : rest.length % 3 = 0 := by
      simp only [List.length_cons] at h
      omega
    simp [base64urlEncode, base64urlEncode_append3 rest l2 h2]

theorem base64urlEncode_length_mod3 : ∀ (l : List Nat), l.length % 3 = 0 →
    (base64urlEncode l).length = 4 * (l.length / 3)
  | [], _ => by simp [base64urlEncode]
  | [_], h => by simp at h
  | [_, _], h => by simp at h
  | a :: b :: c :: rest, h => by
    have h2 : rest.length % 3 = 0 := by
      simp only [List.length_cons] at h
      omega
    have := base64urlEncode_length_mod3 rest h2
    simp only [base64urlEncode, List.length_cons, this]
    omega

theorem base64urlEncode_mem_mod3 : ∀ (l : List Nat), l.length % 3 = 0 →
    (∀ b ∈ l, b < 256) → ∀ ch ∈ base64urlEncode l, ch ∈ base64urlAlphabet
  | [], _, _ => by simp [base64urlEncode]
  | [_], h, _ => by simp at h
  | [_, _], h, _ => by simp at h
  | a :: b :: c :: rest, h, hlt => by
    have h2 : rest.length % 3 = 0 := by
      simp only [List.length_cons] at h
      omega
    have ha : a < 256 := hlt a (by simp)
    have hb : b < 256 := hlt b (by simp)
    have hc : c < 256 := hlt c (by simp)
    have hrest := base64urlEncode_mem_mod3 rest h2
      (fun x hx => hlt x (by simp [hx]))
    intro ch hch
    simp only [base64urlEncode, List.mem_cons] at hch
    rcases hch with rfl | rfl | rfl | rfl | hch
    · exact b64Char_mem (by omega)
    · exact b64Char_mem (by omega)
    · exact b64Char_mem (by omega)
    · exact b64Char_mem (by omega)
    · exact hrest ch hch

/-- Format of a generated candidate id: for a block of 20 random bytes the
encoded-and-truncated id has exactly 20 characters, all drawn from the URL-safe
base64 alphabet (truncation to 20 stays within the first 24 unpadded
characters). -/
theorem candidateId_spec {bytes : List Nat} (hlen : bytes.length = 20)
    (hlt : ∀ b ∈ bytes, b < 256) :
    (candidateId bytes).length = 20 ∧ ∀ ch ∈ candidateId bytes, ch ∈ base64urlAlphabet := by
  have hlen1 : (bytes.take 18).length = 18 := by
    rw [List.length_take]
    omega
  have hmod : (bytes.take 18).length % 3 = 0 := by rw [hlen1]
  have happ := base64urlEncode_append3 (bytes.take 18) (bytes.drop 18) hmod
  have hlen18 : (base64urlEncode (bytes.take 18)).length = 24 := by
    rw [base64urlEncode_length_mod3 _ hmod, hlen1]
  have hsplit : base64urlEncode bytes =
      base64urlEncode (bytes.take 18) ++ base64urlEncode (bytes.drop 18) := by
    conv in base64urlEncode bytes => rw [← List.take_append_drop 18 bytes]
    exact happ
  have htake : candidateId bytes = (base64urlEncode (bytes.take 18)).take 20 := by
    rw [candidateId, hsplit, List.take_append_of_le_length (by omega)]
  constructor
  · rw [htake, List.length_take, hlen18]
    decide
  · intro ch hch
    rw [htake] at hch
    exact base64urlEncode_mem_mod3 (bytes.take 18) hmod
      (fun x hx => hlt x (List.mem_of_mem_take hx)) ch (List.mem_of_mem_take hch)

/-- Contract of a completed `AddClient` + control-loop add: the id was fresh at
reservation, the client is registered afterwards, the id encodes one of the
supplied random blocks, and every id present before is still present after. -/
theorem AddClientRun_spec {s : Server} {draws : List (List Nat)} {bs : List Int}
    {now : Nat} {c : Client} {s3 : Server}
    (h : AddClientRun s draws bs now = some (c, s3)) :
    mapLoad s.clients c.ID = none ∧
    mapLoad s3.clients c.ID = some (.client c) ∧
    (∃ bytes ∈ draws, c.ID = String.mk (candidateId bytes)) ∧
    (∀ k : String, (mapLoad s.clients k).isSome = true →
      (mapLoad s3.clients k).isSome = true) := by
  simp only [AddClientRun, AddClient] at h
  cases hg : genLoop s draws with
  | none => simp [hg] at h
  | some p =>
    obtain ⟨id, s2⟩ := p
    cases hm : makeChan (bufSizeOf bs) with
    | none => simp [hg, hm] at h
    | some ch =>
      simp only [hg, hm, Option.some.injEq, Prod.mk.injEq] at h
      obtain ⟨hc, hs3⟩ := h
      obtain ⟨hfresh, hs2, hdraw⟩ := genLoop_spec hg
      subst hc
      subst hs3
      subst hs2
      refine ⟨hfresh, ?_, ?_, ?_⟩
      · simp only [processAdd]
        exact mapLoad_mapStore_self _ _ _
      · obtain ⟨bytes, hby, heq⟩ := List.mem_map.1 hdraw
        refine ⟨bytes, hby, ?_⟩
        show String.mk id = String.mk (candidateId bytes)
        rw [heq]
      · intro k hk
        by_cases hkc : String.mk id = k
        · simp only [processAdd]
          show (mapLoad (mapStore _ (String.mk id) _) k).isSome = true
          rw [← hkc, mapLoad_mapStore_self]
          rfl
        · simp only [processAdd]
          show (mapLoad (mapStore _ (String.mk id) _) k).isSome = true
          rw [mapLoad_mapStore_ne _ _ hkc]
          show (mapLoad (mapStore _ (String.mk id) _) k).isSome = true
          rw [mapLoad_mapStore_ne _ _ hkc]
          exact hk

theorem addMany_avoid {now : Nat} : ∀ {drawss : List (List (List Nat))} {s : Server}
    {ids : List String} {s2 : Server},
    addMany s now drawss = some (ids, s2) →
    ∀ k : String, (mapLoad s.clients k).isSome = true → k ∉ ids := by
  intro drawss
  induction drawss with
  | nil =>
    intro s ids s2 h k hk
    simp only [addMany, Option.some.injEq, Prod.mk.injEq] at h
    rw [← h.1]
    simp
  | cons draws rest ih =>
    intro s ids s2 h k hk
    simp only [addMany] at h
    cases hA : AddClientRun s draws [] now with
    | none => simp [hA] at h
    | some p =>
      obtain ⟨c, s1⟩ := p
      cases hM : addMany s1 now rest with
      | none => simp [hA, hM] at h
      | some q =>
        obtain ⟨tl, s2x⟩ := q
        simp only [hA, hM, Option.some.injEq, Prod.mk.injEq] at h
        rw [← h.1]
        obtain ⟨hfresh, -, -, hmono⟩ := AddClientRun_spec hA
        simp only [List.mem_cons, not_or]
        constructor
        · intro heq
          rw [heq, hfresh] at hk
          simp at hk
        · exact ih hM k (hmono k hk)

theorem addMany_spec {now : Nat} : ∀ {drawss : List (List (List Nat))} {s : Server}
    {ids : List String} {s2 : Server},
    addMany s now drawss = some (ids, s2) →
    ids.Nodup ∧ ∀ id ∈ ids, ∃ draws ∈ drawss, ∃ bytes ∈ draws,
      id = String.mk (candidateId bytes) := by
  intro drawss
  induction drawss with
  | nil =>
    intro s ids s2 h
    simp only [addMany, Option.some.injEq, Prod.mk.injEq] at h
    rw [← h.1]
    simp
  | cons draws rest ih =>
    intro s ids s2 h
    simp only [addMany] at h
    cases hA : AddClientRun s draws [] now with
    | none => simp [hA] at h
    | some p =>
      obtain ⟨c, s1⟩ := p
      cases hM : addMany s1 now rest with
      | none => simp [hA, hM] at h
      | some q =>
        obtain ⟨tl, s2x⟩ := q
        simp only [hA, hM, Option.some.injEq, Prod.mk.injEq] at h
        rw [← h.1]
        obtain ⟨-, hpres, hsrc, -⟩ := AddClientRun_spec hA
        obtain ⟨hnd, hsrcs⟩ := ih hM
        constructor
        · refine List.nodup_cons.2 ⟨?_, hnd⟩
          exact addMany_avoid hM c.ID (by rw [hpres]; rfl)
        · intro id hid
          rcases List.mem_cons.1 hid with rfl | hid2
          · obtain ⟨bytes, hby, heq⟩ := hsrc
            exact ⟨draws, List.mem_cons_self _ _, bytes, hby, heq⟩
          · obtain ⟨draws2, hdr2, bytes, hby, heq⟩ := hsrcs id hid2
            exact ⟨draws2, List.mem_cons_of_mem _ hdr2, bytes, hby, heq⟩

/-- C6: the generated ids are 20-character strings over the URL-safe base64
alphabet, derived from the supplied random blocks; the retry loop reserves only
ids absent from the live registry (storing the placeholder, and skipping
colliding draws); and any N clients added through `AddClient` receive pairwise
distinct ids. -/
theorem generateClientID_unique_ids (s : Server) (now : Nat)
    (drawss : List (List (List Nat)))
    (hb : ∀ draws ∈ drawss, ∀ bytes ∈ draws, bytes.length = 20 ∧ ∀ b ∈ bytes, b < 256)
    (ids : List String) (s2 : Server)
    (h : addMany s now drawss = some (ids, s2)) :
    ids.Nodup ∧
    (∀ id ∈ ids, id.length = 20 ∧ ∀ ch ∈ id.data, ch ∈ base64urlAlphabet) ∧
    (∀ (s3 : Server) (draws : List (List Nat)) (id : List Char) (s4 : Server),
      genLoop s3 draws = some (id, s4) →
      mapLoad s3.clients (String.mk id) = none ∧
      mapLoad s4.clients (String.mk id) = some .placeholder ∧
      id ∈ draws.map candidateId) := by
  obtain ⟨hnd, hsrc⟩ := addMany_spec h
  refine ⟨hnd, ?_, ?_⟩
  · intro id hid
    obtain ⟨draws, hdr, bytes, hby, heq⟩ := hsrc id hid
    obtain ⟨hlen, hlt⟩ := hb draws hdr bytes hby
    obtain ⟨hclen, hcmem⟩ := candidateId_spec hlen hlt
    rw [heq]
    exact ⟨hclen, hcmem⟩
  · intro s3 draws id s4 hg
    obtain ⟨h1, h2, h3⟩ := genLoop_spec hg
    refine ⟨h1, ?_, h3⟩
    rw [h2]
    exact mapLoad_mapStore_self _ _ _

/-- The draw blocks of the C6 witness: the second `AddClient` first draws the
same block as the first (a collision) and retries with a fresh block. -/
def drawssC6 : List (List (List Nat)) := [[zeroDraw], [zeroDraw, List.replicate 20 1]]

/-- The result of running the C6 witness scenario. -/
def addManyC6 : Option (List String × Server) := addMany NewServer 0 drawssC6

/-- The ids generated in the C6 witness scenario. -/
def idsC6 : List String := (addManyC6.getD ([], NewServer)).1

/-- The final registry of the C6 witness scenario. -/
def srvC6 : Server := (addManyC6.getD ([], NewServer)).2

/-- Witness for C6: two clients added with a deliberate collision on the second
draw still end up with distinct ids. -/
theorem generateClientID_unique_ids_witness :
    (∀ draws ∈ drawssC6, ∀ bytes ∈ draws, bytes.length = 20 ∧ ∀ b ∈ bytes, b < 256) ∧
    addMany NewServer 0 drawssC6 = some (idsC6, srvC6) ∧
    idsC6.Nodup := by
  refine ⟨by decide, rfl, ?_⟩
  exact (generateClientID_unique_ids NewServer 0 drawssC6 (by decide) idsC6 srvC6 rfl).1

end Gosse
